import Mathlib

set_option maxRecDepth 100000

/-!
Shallow embedding of src/Scripts/generate_appcast.py.

Python text values are modelled as lists of characters.  The regular
expression used by remove_existing_item and the substring operations of
the script are implemented directly over these lists, following the
semantics of re.sub (leftmost, non-overlapping matches; the lazy parts
of this particular pattern collapse to first-occurrence search) and of
str.replace (replace every occurrence, left to right).  The filesystem
is modelled as a partial map from paths to file contents, plus a map
giving stat sizes for binary artifacts.
-/

/-- Characters of a Lean string literal, used to transcribe the Python literals. -/
def strL (s : String) : List Char := s.data

/-- ASCII whitespace, as matched by the regex class from the pattern and by str.strip. -/
def pySpace (c : Char) : Bool :=
  c == ' ' || c == '\t' || c == '\n' || c == '\r' || c == '\x0b' || c == '\x0c'

/-- Python str.strip(): drop leading and trailing whitespace. -/
def pyStrip (s : List Char) : List Char :=
  ((s.dropWhile pySpace).reverse.dropWhile pySpace).reverse

/-- Python download_base.rstrip of the slash character: drop trailing slashes. -/
def rstripSlashes (s : List Char) : List Char :=
  (s.reverse.dropWhile (fun c => c == '/')).reverse

/-- One character of html.escape (quote=True).  Escaping character by character
agrees with the sequential str.replace passes of html.escape because the
ampersand pass runs first. -/
def escChar (c : Char) : List Char :=
  if c = '&' then strL "&amp;"
  else if c = '<' then strL "&lt;"
  else if c = '>' then strL "&gt;"
  else if c = '"' then strL "&quot;"
  else if c = '\'' then strL "&#x27;"
  else [c]

/-- html.escape over a whole text. -/
def htmlEscape (s : List Char) : List Char := (s.map escChar).flatten

/-- Python str(n) for a nonnegative int: decimal digits. -/
def pyStrNat (n : Nat) : List Char := Nat.toDigits 10 n

/-- Substring test (Python `in`): does pat occur in s at some position? -/
def occursB (pat : List Char) : List Char → Bool
  | [] => pat.isPrefixOf []
  | s@(_ :: t) => pat.isPrefixOf s || occursB pat t

/-- Number of positions of s at which pat occurs (overlapping positions counted). -/
def countOcc (pat : List Char) : List Char → Nat
  | [] => if pat.isPrefixOf [] then 1 else 0
  | s@(_ :: t) => (if pat.isPrefixOf s then 1 else 0) + countOcc pat t

/-- First occurrence of lit in s; returns the remainder just after that
occurrence.  This is the collapsed semantics of a lazy `.*?` followed by the
literal lit inside the DOTALL pattern. -/
def findLit (lit : List Char) : List Char → Option (List Char)
  | [] => if lit.isPrefixOf [] then some [] else none
  | s@(_ :: t) => if lit.isPrefixOf s then some (s.drop lit.length) else findLit lit t

/-- Require lit as a literal prefix, returning the remainder. -/
def dropLit (lit s : List Char) : Option (List Char) :=
  if lit.isPrefixOf s then some (s.drop lit.length) else none

def itemOpenL : List Char := strL "<item>"
def titleLitL : List Char := strL "<title>App Detective "
def verOpenL : List Char := strL "<sparkle:version>"
def verCloseL : List Char := strL "</sparkle:version>"
def itemCloseL : List Char := strL "</item>"

/-- The literal version tag of the pattern: `<sparkle:version>` v `</sparkle:version>`
(the version is re.escape'd in the source, hence matched literally). -/
def verLit (v : List Char) : List Char := verOpenL ++ v ++ verCloseL

def markerL : List Char := strL "</channel>"

/-- One attempted match of the compiled pattern
`\s*<item>\s*<title>App Detective .*?<sparkle:version>v</sparkle:version>.*?</item>`
(re.DOTALL) at the start of s.  Greedy `\s*` before a literal beginning with a
non-space character is deterministic (maximal munch), and each lazy `.*?`
followed by a literal is a first-occurrence search: a later occurrence of the
version tag can never rescue a failed search for `</item>`, because whatever
follows a later occurrence is a suffix of what follows the first one.
Returns the remainder of s after the matched region. -/
def matchAt (v : List Char) (s : List Char) : Option (List Char) :=
  match dropLit itemOpenL (s.dropWhile pySpace) with
  | none => none
  | some s2 =>
    match dropLit titleLitL (s2.dropWhile pySpace) with
    | none => none
    | some s4 =>
      match findLit (verLit v) s4 with
      | none => none
      | some s5 => findLit itemCloseL s5

/-- re.sub of the pattern with the empty replacement: scan left to right,
removing each leftmost match and continuing after its end.  Fueled so that the
definition computes by kernel reduction; every match consumes at least the
`<item>` literal, so fuel s.length always suffices. -/
def removeAux (v : List Char) : Nat → List Char → List Char
  | _, [] => []
  | 0, s => s
  | f + 1, s@(c :: t) =>
    match matchAt v s with
    | some r => removeAux v f r
    | none => c :: removeAux v f t

def removeAll (v : List Char) (s : List Char) : List Char := removeAux v s.length s

/-- remove_existing_item from the source: re.sub of the version pattern by "". -/
def remove_existing_item (contents version : List Char) : List Char :=
  removeAll version contents

/-- Python contents.replace(marker, repl) for the fixed marker "</channel>":
replace every occurrence, left to right, non-overlapping.  Fueled for kernel
computability; each replacement consumes the 10 marker characters. -/
def replAux (repl : List Char) : Nat → List Char → List Char
  | _, [] => []
  | 0, s => s
  | f + 1, s@(c :: t) =>
    if markerL.isPrefixOf s then repl ++ replAux repl f (s.drop markerL.length)
    else c :: replAux repl f t

def replaceMarker (repl : List Char) (s : List Char) : List Char :=
  replAux repl s.length s

/-- append_item from the source.  `none` models `raise SystemExit(...)` for the
missing-marker case; otherwise the item plus "\n  " is substituted in front of
every occurrence of the closing channel marker (str.replace replaces all). -/
def append_item (contents item : List Char) : Option (List Char) :=
  if occursB markerL contents then
    some (replaceMarker (item ++ strL "\n  " ++ markerL) contents)
  else none

def attrUrl (u : List Char) : List Char := strL "url=\"" ++ u ++ strL "\""
def attrOs : List Char := strL "sparkle:os=\"macos\""
def attrLen (fsz : List Char) : List Char := strL "length=\"" ++ fsz ++ strL "\""
def attrType : List Char := strL "type=\"application/octet-stream\""
def attrEd (s : List Char) : List Char := strL "sparkle:edSignature=\"" ++ s ++ strL "\""
def attrEd31 (s : List Char) : List Char := strL "sparkle:edSignature31=\"" ++ s ++ strL "\""

/-- Python list.insert(i, x): insert before index i (clamped to the end). -/
def insertAt : Nat → List Char → List (List Char) → List (List Char)
  | 0, x, l => x :: l
  | _ + 1, x, [] => [x]
  | n + 1, x, a :: l => a :: insertAt n x l

/-- The enclosure_attrs list of build_item.  The signatures dict is modelled by
its two possible entries; `if s.isEmpty` mirrors the truthiness test
`if signatures.get(...)` (a key is only consulted when present and non-empty). -/
def enclosureAttrs (download_url file_size : List Char)
    (sigEd sigEd31 : Option (List Char)) : List (List Char) :=
  let base := [attrUrl download_url, attrOs, attrLen file_size, attrType]
  let withEd := match sigEd with
    | some s => if s.isEmpty then base else insertAt 1 (attrEd s) base
    | none => base
  match sigEd31 with
  | some s => if s.isEmpty then withEd else insertAt 2 (attrEd31 s) withEd
  | none => withEd

/-- Python sep.join(l). -/
def joinSep (sep : List Char) : List (List Char) → List Char
  | [] => []
  | [x] => x
  | x :: y :: r => x ++ sep ++ joinSep sep (y :: r)

/-- build_item from the source.  rfc822_now() depends on the clock, so the
publish date is an explicit parameter pub_date. -/
def build_item (version short_version download_url file_size notes min_system : List Char)
    (sigEd sigEd31 : Option (List Char)) (pub_date : List Char) : List Char :=
  let enclosure := joinSep (strL "\n        ") (enclosureAttrs download_url file_size sigEd sigEd31)
  strL "    <item>\n      <title>App Detective " ++ short_version
    ++ strL "</title>\n      <description>\n        <![CDATA[\n        " ++ notes
    ++ strL "\n        ]]>\n      </description>\n      <pubDate>" ++ pub_date
    ++ strL "</pubDate>\n      <sparkle:version>" ++ version
    ++ strL "</sparkle:version>\n      <sparkle:shortVersionString>" ++ short_version
    ++ strL "</sparkle:shortVersionString>\n      <enclosure\n        " ++ enclosure
    ++ strL "\n      />\n      <sparkle:minimumSystemVersion>" ++ min_system
    ++ strL "</sparkle:minimumSystemVersion>\n    </item>\n"

/-- Template text before the spliced base_link (ensure_base_appcast). -/
def tplPre : List Char :=
  strL "<?xml version=\"1.0\" encoding=\"UTF-8\"?>\n<rss xmlns:sparkle=\"http://www.andymatuschak.org/xml-namespaces/sparkle\" version=\"2.0\">\n  <channel>\n    <title>App Detective Updates</title>\n    <link>"

/-- Template text after the spliced base_link (the f-string places
base_link = download_base.rstrip of slash plus "/appcast.xml" inside the link element). -/
def tplPost : List Char :=
  strL "/appcast.xml</link>\n    <description>Release notes and downloads for App Detective.</description>\n    <language>en</language>\n  </channel>\n</rss>\n"

/-- The skeleton document written by ensure_base_appcast. -/
def baseTemplate (downloadBase : List Char) : List Char :=
  tplPre ++ rstripSlashes downloadBase ++ tplPost

/-- A text file on disk: readable with a given content, or present but
unreadable (reads raise OSError). -/
inductive FileData where
  | readable (content : List Char)
  | unreadable
deriving DecidableEq

/-- Minimal filesystem state: text files by path, stat sizes of binary
artifacts by path, and the list of directories created with mkdir. -/
structure FS where
  files : List Char → Option FileData
  zipSizes : List Char → Option Nat
  madeDirs : List (List Char)

/-- Path.parent of a slash-separated path. -/
def parentPath (p : List Char) : List Char :=
  ((p.reverse.dropWhile (fun c => !(c == '/'))).drop 1).reverse

/-- Write a text file, overwriting. -/
def fsWrite (fs : FS) (p content : List Char) : FS :=
  { fs with files := fun q => if q = p then some (.readable content) else fs.files q }

/-- ensure_base_appcast from the source: no-op when the document exists,
otherwise mkdir the parent (parents=True, exist_ok=True) and write the
skeleton template. -/
def ensure_base_appcast (fs : FS) (appcastPath downloadBase : List Char) : FS :=
  if (fs.files appcastPath).isSome then fs
  else
    let fs1 : FS := { fs with madeDirs := parentPath appcastPath :: fs.madeDirs }
    fsWrite fs1 appcastPath (baseTemplate downloadBase)

/-- file_size_string from the source: a missing artifact prints a diagnostic
naming the path to stderr and exits with status 1; otherwise str(size). -/
def file_size_string (zipPath : List Char) (statSize : Option Nat) :
    Except (Nat × List Char) (List Char) :=
  match statSize with
  | none => .error (1, strL "Zip file not found at " ++ zipPath)
  | some size => .ok (pyStrNat size)

def defaultNotes : List Char := strL "<p>Bug fixes and improvements.</p>"

/-- load_notes from the source: None or a non-existing path gives the default;
an OSError while reading gives the default; blank content gives the default;
otherwise the content is html-escaped and wrapped in a pre block. -/
def load_notes (fs : FS) (notesPath : Option (List Char)) : List Char :=
  match notesPath with
  | none => defaultNotes
  | some p =>
    match fs.files p with
    | none => defaultNotes
    | some .unreadable => defaultNotes
    | some (.readable raw) =>
      if pyStrip raw = [] then defaultNotes
      else strL "<pre>\n" ++ htmlEscape raw ++ strL "\n</pre>"

structure Args where
  version : List Char
  distDir : List Char
  updateDir : List Char
  downloadBase : List Char
  minSystemVersion : List Char
  notesFile : List Char

/-- Environment variables read by main; none models an unset variable. -/
structure Env where
  shortVersion : Option (List Char)
  minSystemVersion : Option (List Char)
  signature : Option (List Char)
  signature31 : Option (List Char)

def zipPathOf (a : Args) : List Char :=
  a.distDir ++ strL "/AppDetective-" ++ a.version ++ strL ".zip"

def appcastPathOf (a : Args) : List Char := a.updateDir ++ strL "/appcast.xml"

def convNotesPathOf (a : Args) : List Char :=
  a.updateDir ++ strL "/notes/" ++ a.version ++ strL ".md"

/-- The walrus test `if sig := os.environ.get(...)`: the value is kept only
when the variable is set and non-empty. -/
def optNonEmpty : Option (List Char) → Option (List Char)
  | some s => if s.isEmpty then none else some s
  | none => none

/-- Lines 90-98 of main: the notes path is the --notes-file argument when it
is non-blank, else the conventional per-version file when it exists, else None. -/
def resolveNotesPath (a : Args) (fs : FS) : Option (List Char) :=
  if pyStrip a.notesFile ≠ [] then some a.notesFile
  else if (fs.files (convNotesPathOf a)).isSome then some (convNotesPathOf a)
  else none

/-- Notes value computed by main: path resolution followed by load_notes. -/
def resolveNotes (a : Args) (fs : FS) : List Char :=
  load_notes fs (resolveNotesPath a fs)

/-- Outcome of one invocation of the script: the final filesystem plus either
the stdout confirmation line, or a nonzero exit code with the stderr line. -/
inductive RunResult where
  | ok (fs : FS) (stdoutLine : List Char)
  | fatal (fs : FS) (code : Nat) (stderrLine : List Char)

def RunResult.isFatal : RunResult → Bool
  | .fatal _ _ _ => true
  | .ok _ _ => false

def RunResult.fsOf : RunResult → FS
  | .fatal fs _ _ => fs
  | .ok fs _ => fs

def RunResult.codeOf : RunResult → Nat
  | .fatal _ c _ => c
  | .ok _ _ => 0

def RunResult.errOf : RunResult → List Char
  | .fatal _ _ m => m
  | .ok _ _ => []

/-- main from the source, in its execution order: ensure the base document,
resolve notes, stat the artifact (fatal if missing), read environment
overrides, read the document, remove the stale entry, compose the new entry,
splice it in (fatal if the closing channel marker is missing), and write the
document back.  The clock value rendered by rfc822_now is the parameter now. -/
def mainRun (a : Args) (env : Env) (fs : FS) (now : List Char) : RunResult :=
  let zipPath := zipPathOf a
  let appcastPath := appcastPathOf a
  let fs1 := ensure_base_appcast fs appcastPath a.downloadBase
  let notesHtml := load_notes fs1 (resolveNotesPath a fs1)
  match file_size_string zipPath (fs1.zipSizes zipPath) with
  | .error (code, msg) => .fatal fs1 code msg
  | .ok fileSize =>
    let short := env.shortVersion.getD a.version
    let minSys := env.minSystemVersion.getD a.minSystemVersion
    let sigEd := optNonEmpty env.signature
    let sigEd31 := optNonEmpty env.signature31
    let downloadUrl := rstripSlashes a.downloadBase ++ strL "/AppDetective-" ++ a.version ++ strL ".zip"
    match fs1.files appcastPath with
    | none => .fatal fs1 1 (strL "appcast read error")
    | some .unreadable => .fatal fs1 1 (strL "appcast read error")
    | some (.readable contents) =>
      let contents2 := remove_existing_item contents a.version
      let item := build_item a.version short downloadUrl fileSize notesHtml minSys sigEd sigEd31 now
      match append_item contents2 item with
      | none => .fatal fs1 1 (strL "Malformed appcast: missing </channel> marker")
      | some updated =>
        .ok (fsWrite fs1 appcastPath updated)
          (strL "Updated appcast at " ++ appcastPath ++ strL " with version " ++ a.version)

/-- The claim C6 text reads the priority test as plain non-emptiness of the
--notes-file value; modelled from the spec for comparison with the code.
One resolved source is read as the claim words it: absent, unreadable, or
blank content give the fixed fallback, other content is escaped and wrapped. -/
def sourceNotesSpec (fs : FS) (p : List Char) : List Char :=
  match fs.files p with
  | none => defaultNotes
  | some .unreadable => defaultNotes
  | some (.readable raw) =>
    if pyStrip raw = [] then defaultNotes
    else strL "<pre>\n" ++ htmlEscape raw ++ strL "\n</pre>"

/-- Modelled from the spec: notes resolution exactly as claim C6 words it,
with priority given to the --notes-file path whenever it is non-empty as a
string. -/
def claimNotesResolution (a : Args) (fs : FS) : List Char :=
  if a.notesFile ≠ [] then sourceNotesSpec fs a.notesFile
  else if (fs.files (convNotesPathOf a)).isSome then sourceNotesSpec fs (convNotesPathOf a)
  else defaultNotes

/-- Modelled from the spec: claim C6 amended so that the --notes-file value
takes priority when it is non-blank (non-empty after stripping whitespace),
which is the only change its counterexample forces. -/
def claimNotesResolutionAmended (a : Args) (fs : FS) : List Char :=
  if pyStrip a.notesFile ≠ [] then sourceNotesSpec fs a.notesFile
  else if (fs.files (convNotesPathOf a)).isSome then sourceNotesSpec fs (convNotesPathOf a)
  else defaultNotes

/-- No match of the version pattern can begin inside a (a nonempty suffix of a
followed by s never matches).  Scanning a region with this property copies it
unchanged. -/
def noStartB (v : List Char) : List Char → List Char → Bool
  | [], _ => true
  | a@(_ :: t), s => (matchAt v (a ++ s)).isNone && noStartB v t s

/-- No match of the version pattern begins at any suffix of s. -/
def cleanB (v : List Char) : List Char → Bool
  | [] => true
  | s@(_ :: t) => (matchAt v s).isNone && cleanB v t

/-- No occurrence of pat begins inside a when a is followed by s. -/
def noHitB (pat : List Char) : List Char → List Char → Bool
  | [], _ => true
  | a@(_ :: t), s => !(pat.isPrefixOf (a ++ s)) && noHitB pat t s

/-- No occurrence of pat straddles the boundary between a and b. -/
def noStraddleB (pat : List Char) : List Char → List Char → Bool
  | [], _ => true
  | a@(_ :: t), b =>
    (decide (pat.length ≤ a.length) || !(pat.isPrefixOf (a ++ b))) && noStraddleB pat t b

theorem isPrefixOf_self_append (l t : List Char) : l.isPrefixOf (l ++ t) = true :=
  List.isPrefixOf_iff_prefix.mpr (List.prefix_append l t)

theorem length_le_of_isPrefixOf {pat s : List Char} (h : pat.isPrefixOf s = true) :
    pat.length ≤ s.length :=
  (List.isPrefixOf_iff_prefix.mp h).length_le

theorem isPrefixOf_eq_false_of_lt {pat s : List Char} (h : s.length < pat.length) :
    pat.isPrefixOf s = false := by
  cases hp : pat.isPrefixOf s with
  | false => rfl
  | true => exact absurd (length_le_of_isPrefixOf hp) (by omega)

theorem isPrefixOf_append_left {pat : List Char} :
    ∀ {y : List Char} (b : List Char), pat.length ≤ y.length →
      pat.isPrefixOf (y ++ b) = pat.isPrefixOf y := by
  induction pat with
  | nil => intro y b _; cases y <;> simp [List.isPrefixOf]
  | cons p pt ih =>
    intro y b hlen
    cases y with
    | nil => simp at hlen
    | cons c t =>
      simp only [List.cons_append, List.isPrefixOf, List.append_eq]
      rw [ih b (by simpa using hlen)]

theorem countOcc_eq_zero_of_not_occurs {pat : List Char} :
    ∀ {s : List Char}, occursB pat s = false → countOcc pat s = 0 := by
  intro s
  induction s with
  | nil =>
    intro h
    simp only [occursB] at h
    simp [countOcc, h]
  | cons c t ih =>
    intro h
    simp only [occursB, Bool.or_eq_false_iff] at h
    simp [countOcc, h.1, ih h.2]

theorem occursB_eq_false_of_lt {pat s : List Char} (h : s.length < pat.length) :
    occursB pat s = false := by
  induction s with
  | nil => simp [occursB, isPrefixOf_eq_false_of_lt h]
  | cons c t ih =>
    simp only [occursB, Bool.or_eq_false_iff]
    refine ⟨isPrefixOf_eq_false_of_lt h, ih ?_⟩
    simp only [List.length_cons] at h
    omega

theorem countOcc_append_of_noStraddle {pat : List Char} (hpat : pat ≠ []) :
    ∀ {a : List Char} (b : List Char), noStraddleB pat a b = true →
      countOcc pat (a ++ b) = countOcc pat a + countOcc pat b := by
  intro a
  induction a with
  | nil =>
    intro b _
    have : countOcc pat [] = 0 := by
      cases pat with
      | nil => exact absurd rfl hpat
      | cons p pt => simp [countOcc, List.isPrefixOf]
    simp [this]
  | cons c t ih =>
    intro b hns
    simp only [noStraddleB, Bool.and_eq_true] at hns
    have hrec := ih b hns.2
    simp only [List.cons_append, countOcc, List.append_eq]
    have hif : pat.isPrefixOf (c :: (t ++ b)) = pat.isPrefixOf (c :: t) := by
      have hcons : (c :: (t ++ b)) = (c :: t) ++ b := rfl
      rw [hcons]
      rcases Bool.or_eq_true_iff.mp hns.1 with h1 | h1
      · exact isPrefixOf_append_left b (of_decide_eq_true h1)
      · have hfalse : pat.isPrefixOf ((c :: t) ++ b) = false := by
          simpa using h1
        rw [hfalse]
        by_cases hle : pat.length ≤ (c :: t).length
        · rw [isPrefixOf_append_left b hle] at hfalse
          exact hfalse.symm
        · exact (isPrefixOf_eq_false_of_lt (by omega)).symm
    simp only [hif, hrec]
    omega

theorem occursB_append_mid (pat a b : List Char) : occursB pat (a ++ (pat ++ b)) = true := by
  induction a with
  | nil =>
    simp only [List.nil_append]
    have hpre : pat.isPrefixOf (pat ++ b) = true := isPrefixOf_self_append pat b
    cases hpb : pat ++ b with
    | nil =>
      have hp : pat = [] := by
        cases pat with
        | nil => rfl
        | cons x xs => simp at hpb
      rw [hp]
      simp [occursB, List.isPrefixOf]
    | cons c t =>
      have hpre2 : pat.isPrefixOf (c :: t) = true := by rw [← hpb]; exact hpre
      simp [occursB, hpre2]
  | cons x xs ih =>
    simp only [List.cons_append, List.append_eq, occursB, ih, Bool.or_true]

theorem countOcc_pat_append (p : Char) (pt b : List Char) :
    countOcc (p :: pt) ((p :: pt) ++ b) = 1 + countOcc (p :: pt) (pt ++ b) := by
  have h := isPrefixOf_self_append (p :: pt) b
  simp only [List.cons_append] at h ⊢
  simp [countOcc, h]

theorem countOcc_one_mid {pat : List Char} (hpat : pat ≠ []) (a b : List Char)
    (ha0 : occursB pat a = false) (hb0 : occursB pat b = false)
    (hs1 : noStraddleB pat a (pat ++ b) = true)
    (hs2 : noStraddleB pat pat b = true) :
    countOcc pat (a ++ (pat ++ b)) = 1 := by
  rw [countOcc_append_of_noStraddle hpat (pat ++ b) hs1,
      countOcc_append_of_noStraddle hpat b hs2,
      countOcc_eq_zero_of_not_occurs ha0,
      countOcc_eq_zero_of_not_occurs hb0]
  cases pat with
  | nil => exact absurd rfl hpat
  | cons p pt =>
    have hself := countOcc_pat_append p pt []
    have hpt : countOcc (p :: pt) (pt ++ []) = 0 := by
      apply countOcc_eq_zero_of_not_occurs
      apply occursB_eq_false_of_lt
      simp
    simp only [List.append_nil] at hself hpt
    rw [hself, hpt]

theorem findLit_length_le {lit : List Char} :
    ∀ {s r : List Char}, findLit lit s = some r → r.length ≤ s.length := by
  intro s
  induction s with
  | nil =>
    intro r h
    simp only [findLit] at h
    split at h
    · cases h; simp
    · cases h
  | cons c t ih =>
    intro r h
    simp only [findLit] at h
    split at h
    · cases h
      simp only [List.length_drop]
      omega
    · have := ih h
      simp only [List.length_cons]
      omega

theorem dropLit_length {lit s r : List Char} (h : dropLit lit s = some r) :
    r.length + lit.length = s.length := by
  unfold dropLit at h
  split at h
  next hpre =>
    cases h
    have hle := length_le_of_isPrefixOf hpre
    simp only [List.length_drop]
    omega
  next => cases h

theorem dropWhile_length_le (p : Char → Bool) (l : List Char) :
    (l.dropWhile p).length ≤ l.length := by
  induction l with
  | nil => simp
  | cons c t ih =>
    rw [List.dropWhile_cons]
    split
    · simp only [List.length_cons]; omega
    · simp

theorem matchAt_length_lt {v : List Char} :
    ∀ {s r : List Char}, matchAt v s = some r → r.length < s.length := by
  intro s r h
  unfold matchAt at h
  have e1 := dropWhile_length_le pySpace s
  split at h
  next => exact absurd h (by simp)
  next s2 h1 =>
    have e2 := dropLit_length h1
    have e3 := dropWhile_length_le pySpace s2
    split at h
    next => exact absurd h (by simp)
    next s4 h2 =>
      have e4 := dropLit_length h2
      split at h
      next => exact absurd h (by simp)
      next s5 h3 =>
        have e5 := findLit_length_le h3
        have e6 := findLit_length_le h
        have hit : itemOpenL.length = 6 := rfl
        omega

theorem removeAux_congr (v : List Char) :
    ∀ (f1 : Nat) {s : List Char} (f2 : Nat), s.length ≤ f1 → s.length ≤ f2 →
      removeAux v f1 s = removeAux v f2 s := by
  intro f1
  induction f1 with
  | zero =>
    intro s f2 h1 _
    have : s = [] := List.length_eq_zero.mp (by omega)
    subst this
    cases f2 <;> rfl
  | succ g ih =>
    intro s f2 h1 h2
    cases s with
    | nil => cases f2 <;> rfl
    | cons c t =>
      cases f2 with
      | zero => simp at h2
      | succ g2 =>
        cases hm : matchAt v (c :: t) with
        | some r =>
          have hlt := matchAt_length_lt hm
          simp only [removeAux, hm]
          simp only [List.length_cons] at h1 h2 hlt
          exact ih g2 (by omega) (by omega)
        | none =>
          simp only [removeAux, hm]
          simp only [List.length_cons] at h1 h2
          rw [ih g2 (by omega) (by omega)]

theorem removeAux_skip {v : List Char} :
    ∀ (a : List Char) {s : List Char} (f : Nat), noStartB v a s = true →
      (a ++ s).length ≤ f → removeAux v f (a ++ s) = a ++ removeAux v (f - a.length) s := by
  intro a
  induction a with
  | nil => intro s f _ _; simp
  | cons c t ih =>
    intro s f hns hf
    simp only [noStartB, Bool.and_eq_true] at hns
    have hnone : matchAt v ((c :: t) ++ s) = none := Option.isNone_iff_eq_none.mp hns.1
    cases f with
    | zero => simp at hf
    | succ g =>
      simp only [List.cons_append] at hnone ⊢
      simp only [removeAux, hnone]
      simp only [List.length_append, List.length_cons] at hf ⊢
      have harith : g + 1 - (t.length + 1) = g - t.length := by omega
      rw [harith, ih g hns.2 (by simp only [List.length_append]; omega)]

theorem removeAll_append_of_noStart {v a : List Char} (s : List Char)
    (h : noStartB v a s = true) : removeAll v (a ++ s) = a ++ removeAll v s := by
  unfold removeAll
  rw [removeAux_skip a ((a ++ s).length) h (le_refl _)]
  have hlen : (a ++ s).length - a.length = s.length := by
    rw [List.length_append]; omega
  rw [hlen]

theorem removeAll_of_matchAt {v s r : List Char} (h : matchAt v s = some r) :
    removeAll v s = removeAll v r := by
  cases s with
  | nil =>
    rw [show matchAt v [] = none from rfl] at h
    cases h
  | cons c t =>
    unfold removeAll
    have hlt := matchAt_length_lt h
    simp only [List.length_cons]
    simp only [removeAux, h]
    simp only [List.length_cons] at hlt
    exact removeAux_congr v t.length r.length (by omega) (le_refl _)

theorem removeAux_of_clean {v : List Char} :
    ∀ (f : Nat) {s : List Char}, cleanB v s = true → removeAux v f s = s := by
  intro f
  induction f with
  | zero => intro s _; cases s <;> rfl
  | succ g ih =>
    intro s hc
    cases s with
    | nil => rfl
    | cons c t =>
      simp only [cleanB, Bool.and_eq_true] at hc
      have hnone : matchAt v (c :: t) = none := Option.isNone_iff_eq_none.mp hc.1
      simp only [removeAux, hnone]
      rw [ih hc.2]

theorem removeAll_of_clean {v s : List Char} (h : cleanB v s = true) : removeAll v s = s :=
  removeAux_of_clean s.length h

theorem replAux_congr (repl : List Char) :
    ∀ (f1 : Nat) {s : List Char} (f2 : Nat), s.length ≤ f1 → s.length ≤ f2 →
      replAux repl f1 s = replAux repl f2 s := by
  intro f1
  induction f1 with
  | zero =>
    intro s f2 h1 _
    have : s = [] := List.length_eq_zero.mp (by omega)
    subst this
    cases f2 <;> rfl
  | succ g ih =>
    intro s f2 h1 h2
    cases s with
    | nil => cases f2 <;> rfl
    | cons c t =>
      cases f2 with
      | zero => simp at h2
      | succ g2 =>
        by_cases hp : markerL.isPrefixOf (c :: t) = true
        · have hle := length_le_of_isPrefixOf hp
          have hmk : markerL.length = 10 := rfl
          simp only [replAux, hp, if_true]
          simp only [List.length_cons] at h1 h2
          simp only [List.length_cons] at hle
          have := ih (s := (c :: t).drop markerL.length) g2
            (by simp only [List.length_drop, List.length_cons]; omega)
            (by simp only [List.length_drop, List.length_cons]; omega)
          rw [this]
        · have hp2 : markerL.isPrefixOf (c :: t) = false := by
            cases hq : markerL.isPrefixOf (c :: t) with
            | false => rfl
            | true => exact absurd hq hp
          simp only [replAux, hp2, Bool.false_eq_true, if_false]
          simp only [List.length_cons] at h1 h2
          rw [ih g2 (by omega) (by omega)]

theorem replAux_skip (repl : List Char) :
    ∀ (a : List Char) {s : List Char} (f : Nat), noHitB markerL a s = true →
      (a ++ s).length ≤ f → replAux repl f (a ++ s) = a ++ replAux repl (f - a.length) s := by
  intro a
  induction a with
  | nil => intro s f _ _; simp
  | cons c t ih =>
    intro s f hnh hf
    simp only [noHitB, Bool.and_eq_true] at hnh
    have hfalse : markerL.isPrefixOf ((c :: t) ++ s) = false := by
      rcases hnh with ⟨h1, _⟩
      simpa using h1
    cases f with
    | zero => simp at hf
    | succ g =>
      simp only [List.cons_append] at hfalse ⊢
      simp only [replAux, hfalse, Bool.false_eq_true, if_false]
      simp only [List.length_append, List.length_cons] at hf ⊢
      have harith : g + 1 - (t.length + 1) = g - t.length := by omega
      rw [harith, ih g hnh.2 (by simp only [List.length_append]; omega)]

theorem replaceMarker_skip {repl a : List Char} (s : List Char)
    (h : noHitB markerL a s = true) :
    replaceMarker repl (a ++ s) = a ++ replaceMarker repl s := by
  unfold replaceMarker
  rw [replAux_skip repl a ((a ++ s).length) h (le_refl _)]
  have hlen : (a ++ s).length - a.length = s.length := by
    rw [List.length_append]; omega
  rw [hlen]

theorem replaceMarker_marker (repl b : List Char) :
    replaceMarker repl (markerL ++ b) = repl ++ replaceMarker repl b := by
  unfold replaceMarker
  cases hm : markerL ++ b with
  | nil => simp [markerL, strL] at hm
  | cons c t =>
    have hpre : markerL.isPrefixOf (c :: t) = true := by
      rw [← hm]; exact isPrefixOf_self_append markerL b
    have hdrop : (c :: t).drop markerL.length = b := by
      rw [← hm]; exact List.drop_left markerL b
    have hlen : (c :: t).length = markerL.length + b.length := by
      rw [← hm, List.length_append]
    simp only [List.length_cons, replAux, hpre, if_true, hdrop]
    have hmk : markerL.length = 10 := rfl
    simp only [List.length_cons, hmk] at hlen
    have := replAux_congr repl t.length (s := b) b.length (by omega) (le_refl _)
    rw [this]

theorem replAux_of_not_occurs (repl : List Char) :
    ∀ (f : Nat) {s : List Char}, occursB markerL s = false → replAux repl f s = s := by
  intro f
  induction f with
  | zero => intro s _; cases s <;> rfl
  | succ g ih =>
    intro s ho
    cases s with
    | nil => rfl
    | cons c t =>
      simp only [occursB, Bool.or_eq_false_iff] at ho
      simp only [replAux, ho.1, Bool.false_eq_true, if_false]
      rw [ih ho.2]

theorem replaceMarker_of_not_occurs {repl s : List Char} (h : occursB markerL s = false) :
    replaceMarker repl s = s :=
  replAux_of_not_occurs repl s.length h

theorem ensure_of_isSome {fs : FS} {p db : List Char} (h : (fs.files p).isSome = true) :
    ensure_base_appcast fs p db = fs := by
  unfold ensure_base_appcast
  rw [if_pos h]

theorem ensure_zipSizes (fs : FS) (p db : List Char) :
    (ensure_base_appcast fs p db).zipSizes = fs.zipSizes := by
  unfold ensure_base_appcast fsWrite
  split <;> rfl

theorem occursB_append_of_right {pat b : List Char} (a : List Char)
    (h : occursB pat b = true) : occursB pat (a ++ b) = true := by
  induction a with
  | nil => simpa
  | cons x xs ih =>
    simp only [List.cons_append, occursB, List.append_eq, ih, Bool.or_true]

theorem occursB_append_of_left {pat : List Char} :
    ∀ {a : List Char} (b : List Char), occursB pat a = true → occursB pat (a ++ b) = true := by
  intro a
  induction a with
  | nil =>
    intro b h
    simp only [occursB] at h
    have : pat = [] := by
      cases pat with
      | nil => rfl
      | cons p pt => simp [List.isPrefixOf] at h
    subst this
    cases b <;> simp [occursB, List.isPrefixOf]
  | cons c t ih =>
    intro b h
    simp only [occursB, Bool.or_eq_true_iff] at h
    simp only [List.cons_append, occursB, List.append_eq, Bool.or_eq_true_iff]
    rcases h with h | h
    · left
      have hp := List.isPrefixOf_iff_prefix.mp h
      exact List.isPrefixOf_iff_prefix.mpr (hp.trans (List.prefix_append (c :: t) b))
    · right
      exact ih b h

theorem joinSep_mem_decomp {x : List Char} (sep : List Char) :
    ∀ {l : List (List Char)}, x ∈ l → ∃ A B, joinSep sep l = A ++ (x ++ B) := by
  intro l
  induction l with
  | nil => intro h; cases h
  | cons y r ih =>
    intro h
    cases r with
    | nil =>
      have hx : x = y := by
        cases h with
        | head => rfl
        | tail _ hmem => cases hmem
      subst hx
      exact ⟨[], [], by simp [joinSep]⟩
    | cons z r2 =>
      cases h with
      | head => exact ⟨[], sep ++ joinSep sep (z :: r2), by simp [joinSep]⟩
      | tail _ hmem =>
        obtain ⟨A, B, hAB⟩ := ih hmem
        refine ⟨y ++ sep ++ A, B, ?_⟩
        simp only [joinSep, hAB, List.append_assoc]

/-- Claim C4: when the artifact zip is missing, the run terminates fatally with
exit status 1 and a stderr diagnostic naming the missing path; when the
artifact exists with size n, file_size_string returns str(n) without
terminating. -/
theorem c4_missing_artifact_fails_fast (a : Args) (env : Env) (fs : FS) (now p : List Char)
    (n : Nat) :
    (fs.zipSizes (zipPathOf a) = none →
      (mainRun a env fs now).isFatal = true
      ∧ (mainRun a env fs now).codeOf = 1
      ∧ (mainRun a env fs now).errOf = strL "Zip file not found at " ++ zipPathOf a)
  ∧ file_size_string p (some n) = .ok (pyStrNat n) := by
  constructor
  · intro h
    have hz : (ensure_base_appcast fs (appcastPathOf a) a.downloadBase).zipSizes (zipPathOf a)
        = none := by
      rw [ensure_zipSizes]; exact h
    simp only [mainRun, hz, file_size_string]
    exact ⟨rfl, rfl, rfl⟩
  · rfl

def cexArgs : Args :=
  ⟨strL "1.0", strL "dist", strL "upd", strL "https://x", strL "13.0", strL ""⟩

def cexEnv : Env := ⟨none, none, none, none⟩

def fsEmpty : FS := ⟨fun _ => none, fun _ => none, []⟩

theorem c4_missing_artifact_fails_fast_witness :
    (mainRun cexArgs cexEnv fsEmpty (strL "PD")).isFatal = true
    ∧ (mainRun cexArgs cexEnv fsEmpty (strL "PD")).codeOf = 1
    ∧ (mainRun cexArgs cexEnv fsEmpty (strL "PD")).errOf
        = strL "Zip file not found at " ++ zipPathOf cexArgs :=
  (c4_missing_artifact_fails_fast cexArgs cexEnv fsEmpty (strL "PD") (strL "") 0).1 rfl

/-- Claim C5: append_item fails exactly on documents without the closing
channel marker; at the run level a document (present before the run) whose
post-removal text lacks the marker makes the run abort with exit status 1 and
the descriptive message, leaving the document at the target path untouched. -/
theorem c5_missing_marker_aborts (c i e : List Char) (a : Args) (env : Env) (fs : FS)
    (now : List Char) (n : Nat) :
    (occursB markerL c = false → append_item c i = none)
  ∧ (occursB markerL c = true → (append_item c i).isSome = true)
  ∧ (fs.files (appcastPathOf a) = some (.readable e) →
     fs.zipSizes (zipPathOf a) = some n →
     occursB markerL (remove_existing_item e a.version) = false →
       mainRun a env fs now
         = .fatal fs 1 (strL "Malformed appcast: missing </channel> marker")
       ∧ (mainRun a env fs now).fsOf.files (appcastPathOf a)
         = fs.files (appcastPathOf a)) := by
  refine ⟨?_, ?_, ?_⟩
  · intro h
    unfold append_item
    rw [if_neg (by simp [h])]
  · intro h
    unfold append_item
    rw [if_pos h]
    rfl
  · intro hdoc hzip hocc
    have hens : ensure_base_appcast fs (appcastPathOf a) a.downloadBase = fs :=
      ensure_of_isSome (by rw [hdoc]; rfl)
    have happ : ∀ it, append_item (remove_existing_item e a.version) it = none := by
      intro it
      unfold append_item
      rw [if_neg (by simp [hocc])]
    have hmain : mainRun a env fs now
        = .fatal fs 1 (strL "Malformed appcast: missing </channel> marker") := by
      simp only [mainRun, hens, hzip, file_size_string, hdoc, happ]
    exact ⟨hmain, by rw [hmain]; simp [RunResult.fsOf, hdoc]⟩

def fsC5 : FS :=
  ⟨fun q => if q = strL "upd/appcast.xml" then some (.readable (strL "<rss>no marker</rss>")) else none,
   fun q => if q = strL "dist/AppDetective-1.0.zip" then some 5 else none, []⟩

theorem c5_missing_marker_aborts_witness :
    mainRun cexArgs cexEnv fsC5 (strL "PD")
      = .fatal fsC5 1 (strL "Malformed appcast: missing </channel> marker")
    ∧ (mainRun cexArgs cexEnv fsC5 (strL "PD")).fsOf.files (appcastPathOf cexArgs)
      = fsC5.files (appcastPathOf cexArgs) :=
  (c5_missing_marker_aborts (strL "x") (strL "i") (strL "<rss>no marker</rss>")
    cexArgs cexEnv fsC5 (strL "PD") 5).2.2 (by decide) (by decide) (by decide)

/-- Claim C7: for an artifact of size n bytes the enclosure of the composed
entry carries the attribute length="str(n)" with str(n) the exact decimal
byte count: file_size_string yields the decimal digits, that length attribute
is an element of the composed attribute list, and it occurs verbatim in the
composed item fragment. -/
theorem c7_length_is_exact_byte_count (p url v sv notes minSys pd : List Char) (n : Nat)
    (se se31 : Option (List Char)) :
    file_size_string p (some n) = .ok (pyStrNat n)
  ∧ attrLen (pyStrNat n) ∈ enclosureAttrs url (pyStrNat n) se se31
  ∧ occursB (attrLen (pyStrNat n)) (build_item v sv url (pyStrNat n) notes minSys se se31 pd)
      = true := by
  have hmem : attrLen (pyStrNat n) ∈ enclosureAttrs url (pyStrNat n) se se31 := by
    unfold enclosureAttrs
    cases se with
    | none =>
      cases se31 with
      | none => simp [insertAt]
      | some t => by_cases ht : t.isEmpty <;> simp [ht, insertAt]
    | some s =>
      cases se31 with
      | none => by_cases hs : s.isEmpty <;> simp [hs, insertAt]
      | some t =>
        by_cases hs : s.isEmpty <;> by_cases ht : t.isEmpty <;> simp [hs, ht, insertAt]
  refine ⟨rfl, hmem, ?_⟩
  obtain ⟨A, B, hAB⟩ := joinSep_mem_decomp (strL "\n        ") hmem
  simp only [build_item, hAB]
  apply occursB_append_of_left
  apply occursB_append_of_left
  apply occursB_append_of_left
  apply occursB_append_of_right
  apply occursB_append_of_right
  have := occursB_append_mid (attrLen (pyStrNat n)) [] B
  simpa using this

def isSigAttr (x : List Char) : Bool := (strL "sparkle:edSignature").isPrefixOf x
def isEdAttr (x : List Char) : Bool := (strL "sparkle:edSignature=\"").isPrefixOf x
def isEd31Attr (x : List Char) : Bool := (strL "sparkle:edSignature31=\"").isPrefixOf x

/-- Non-emptiness of an environment value (unset reads as absent). -/
def envNonEmpty : Option (List Char) → Bool
  | some s => !s.isEmpty
  | none => false

theorem countP_edAttr (url fsz : List Char) (e1 e2 : Option (List Char)) :
    ((enclosureAttrs url fsz (optNonEmpty e1) (optNonEmpty e2)).countP isEdAttr)
      = (if envNonEmpty e1 then 1 else 0) := by
  rcases e1 with _ | u
  · rcases e2 with _ | w
    · rfl
    · cases w <;> rfl
  · cases u with
    | nil =>
      rcases e2 with _ | w
      · rfl
      · cases w <;> rfl
    | cons c u2 =>
      rcases e2 with _ | w
      · rfl
      · cases w <;> rfl

theorem countP_ed31Attr (url fsz : List Char) (e1 e2 : Option (List Char)) :
    ((enclosureAttrs url fsz (optNonEmpty e1) (optNonEmpty e2)).countP isEd31Attr)
      = (if envNonEmpty e2 then 1 else 0) := by
  rcases e1 with _ | u
  · rcases e2 with _ | w
    · rfl
    · cases w <;> rfl
  · cases u with
    | nil =>
      rcases e2 with _ | w
      · rfl
      · cases w <;> rfl
    | cons c u2 =>
      rcases e2 with _ | w
      · rfl
      · cases w <;> rfl

/-- Claim C8: with neither environment signature present (unset or empty) the
enclosure attribute list carries no signature attribute; with only SIGNATURE
non-empty exactly one; with both non-empty the primary edSignature attribute
stands immediately before the secondary edSignature31 attribute; and each
signature attribute is present if and only if the corresponding environment
value is non-empty. -/
theorem c8_signature_attributes (url fsz s t : List Char) (o1 o2 : Option (List Char))
    (hs : s ≠ []) (ht : t ≠ []) :
    (optNonEmpty none = none ∧ optNonEmpty (some ([] : List Char)) = none)
  ∧ (enclosureAttrs url fsz (optNonEmpty none) (optNonEmpty none)
        = [attrUrl url, attrOs, attrLen fsz, attrType]
     ∧ (enclosureAttrs url fsz (optNonEmpty none) (optNonEmpty none)).countP isSigAttr = 0)
  ∧ (enclosureAttrs url fsz (optNonEmpty (some s)) (optNonEmpty none)
        = [attrUrl url, attrEd s, attrOs, attrLen fsz, attrType]
     ∧ (enclosureAttrs url fsz (optNonEmpty (some s)) (optNonEmpty none)).countP isSigAttr = 1)
  ∧ (enclosureAttrs url fsz (optNonEmpty (some s)) (optNonEmpty (some t))
        = [attrUrl url, attrEd s, attrEd31 t, attrOs, attrLen fsz, attrType]
     ∧ (enclosureAttrs url fsz (optNonEmpty (some s)) (optNonEmpty (some t))).countP isSigAttr = 2)
  ∧ ((0 < (enclosureAttrs url fsz (optNonEmpty o1) (optNonEmpty o2)).countP isEdAttr)
        ↔ envNonEmpty o1 = true)
  ∧ ((0 < (enclosureAttrs url fsz (optNonEmpty o1) (optNonEmpty o2)).countP isEd31Attr)
        ↔ envNonEmpty o2 = true) := by
  obtain ⟨c, s2, rfl⟩ := List.exists_cons_of_ne_nil hs
  obtain ⟨d, t2, rfl⟩ := List.exists_cons_of_ne_nil ht
  refine ⟨⟨rfl, rfl⟩, ⟨rfl, rfl⟩, ⟨rfl, rfl⟩, ⟨rfl, rfl⟩, ?_, ?_⟩
  · rw [countP_edAttr]
    cases h : envNonEmpty o1 <;> simp
  · rw [countP_ed31Attr]
    cases h : envNonEmpty o2 <;> simp

theorem c8_signature_attributes_witness :
    enclosureAttrs (strL "u") (strL "9") (optNonEmpty (some (strL "S"))) (optNonEmpty (some (strL "T")))
      = [attrUrl (strL "u"), attrEd (strL "S"), attrEd31 (strL "T"), attrOs, attrLen (strL "9"), attrType] :=
  (c8_signature_attributes (strL "u") (strL "9") (strL "S") (strL "T") none none
    (by decide) (by decide)).2.2.2.1.1

def chanOpenL : List Char := strL "<channel>"

/-- Claim C9: bootstrapping a missing document records the parent directory
creation and writes the skeleton, the skeleton contains exactly one channel
element and zero entries (for a download base free of those markers), the
operation is idempotent, and it is a no-op when the document exists. -/
theorem c9_bootstrap_skeleton_idempotent (fs : FS) (p db : List Char)
    (hc1 : noStraddleB chanOpenL tplPre (rstripSlashes db ++ tplPost) = true)
    (hc2 : noStraddleB chanOpenL (rstripSlashes db) tplPost = true)
    (hc3 : occursB chanOpenL (rstripSlashes db) = false)
    (hi1 : noStraddleB itemOpenL tplPre (rstripSlashes db ++ tplPost) = true)
    (hi2 : noStraddleB itemOpenL (rstripSlashes db) tplPost = true)
    (hi3 : occursB itemOpenL (rstripSlashes db) = false) :
    (fs.files p = none →
      (ensure_base_appcast fs p db).files p = some (.readable (baseTemplate db))
      ∧ parentPath p ∈ (ensure_base_appcast fs p db).madeDirs)
  ∧ countOcc chanOpenL (baseTemplate db) = 1
  ∧ countOcc itemOpenL (baseTemplate db) = 0
  ∧ ensure_base_appcast (ensure_base_appcast fs p db) p db = ensure_base_appcast fs p db
  ∧ ((fs.files p).isSome = true → ensure_base_appcast fs p db = fs) := by
  have hbt : baseTemplate db = tplPre ++ (rstripSlashes db ++ tplPost) := by
    unfold baseTemplate; rw [List.append_assoc]
  refine ⟨?_, ?_, ?_, ?_, ?_⟩
  · intro h
    unfold ensure_base_appcast fsWrite
    rw [if_neg (by simp [h])]
    constructor
    · simp
    · simp
  · rw [hbt, countOcc_append_of_noStraddle (by decide) _ hc1,
        countOcc_append_of_noStraddle (by decide) _ hc2,
        countOcc_eq_zero_of_not_occurs hc3]
    have h1 : countOcc chanOpenL tplPre = 1 := by decide
    have h2 : countOcc chanOpenL tplPost = 0 := by decide
    rw [h1, h2]
  · rw [hbt, countOcc_append_of_noStraddle (by decide) _ hi1,
        countOcc_append_of_noStraddle (by decide) _ hi2,
        countOcc_eq_zero_of_not_occurs hi3]
    have h1 : countOcc itemOpenL tplPre = 0 := by decide
    have h2 : countOcc itemOpenL tplPost = 0 := by decide
    rw [h1, h2]
  · by_cases h : (fs.files p).isSome = true
    · rw [ensure_of_isSome h, ensure_of_isSome h]
    · have h2 : ((ensure_base_appcast fs p db).files p).isSome = true := by
        unfold ensure_base_appcast fsWrite
        rw [if_neg h]
        simp
      exact ensure_of_isSome h2
  · intro h
    exact ensure_of_isSome h

theorem c9_bootstrap_skeleton_idempotent_witness :
    (ensure_base_appcast fsEmpty (strL "upd/appcast.xml") (strL "https://example.com/updates")).files
        (strL "upd/appcast.xml")
      = some (.readable (baseTemplate (strL "https://example.com/updates")))
  ∧ countOcc chanOpenL (baseTemplate (strL "https://example.com/updates")) = 1
  ∧ countOcc itemOpenL (baseTemplate (strL "https://example.com/updates")) = 0 := by
  have h := c9_bootstrap_skeleton_idempotent fsEmpty (strL "upd/appcast.xml")
    (strL "https://example.com/updates")
    (by decide) (by decide) (by decide) (by decide) (by decide) (by decide)
  exact ⟨(h.1 rfl).1, h.2.1, h.2.2.1⟩

/-- Claim C10: append_item substitutes the composed fragment in front of every
occurrence of the closing channel marker; with two marker occurrences the
fragment is inserted at both, so single insertion needs a unique marker. -/
theorem c10_append_replaces_every_marker (item a b c : List Char)
    (h1 : noHitB markerL a (markerL ++ (b ++ (markerL ++ c))) = true)
    (h2 : noHitB markerL b (markerL ++ c) = true)
    (h3 : occursB markerL c = false) :
    append_item (a ++ (markerL ++ (b ++ (markerL ++ c)))) item
      = some (a ++ ((item ++ strL "\n  " ++ markerL)
          ++ (b ++ ((item ++ strL "\n  " ++ markerL) ++ c)))) := by
  unfold append_item
  rw [if_pos (occursB_append_mid markerL a (b ++ (markerL ++ c)))]
  rw [replaceMarker_skip (markerL ++ (b ++ (markerL ++ c))) h1,
      replaceMarker_marker, replaceMarker_skip (markerL ++ c) h2,
      replaceMarker_marker, replaceMarker_of_not_occurs h3]

theorem c10_append_replaces_every_marker_witness :
    append_item (strL "<rss>" ++ (markerL ++ (strL "mid" ++ (markerL ++ strL "</rss>"))))
        (strL "ITEM")
      = some (strL "<rss>" ++ ((strL "ITEM" ++ strL "\n  " ++ markerL)
          ++ (strL "mid" ++ ((strL "ITEM" ++ strL "\n  " ++ markerL) ++ strL "</rss>")))) :=
  c10_append_replaces_every_marker (strL "ITEM") (strL "<rss>") (strL "mid") (strL "</rss>")
    (by decide) (by decide) (by decide)

theorem load_notes_some (fs : FS) (p : List Char) :
    load_notes fs (some p) = sourceNotesSpec fs p := by
  simp only [load_notes, sourceNotesSpec]

def argsC6 : Args :=
  ⟨strL "1.0", strL "dist", strL "upd", strL "https://x", strL "13.0", strL " "⟩

def fsC6 : FS :=
  ⟨fun q => if q = strL " " then some (.readable (strL "hi")) else none,
   fun _ => none, []⟩

/-- Claim C6 counterexample: with --notes-file set to a single space naming an
existing readable file, the claimed priority (non-empty path wins) would use
that file, but the code strips the value first and falls back instead. -/
theorem c6_notes_priority_counterexample :
    resolveNotes argsC6 fsC6 ≠ claimNotesResolution argsC6 fsC6 := by decide

/-- Claim C6 amended: notes resolution follows the claimed priority order with
the --notes-file path taking priority when it is non-blank (non-empty after
stripping whitespace); each resolved source that is absent, unreadable or
blank yields exactly the fallback markup, and a non-blank readable source is
html-escaped and wrapped in a pre block. -/
theorem c6_notes_priority_amended (a : Args) (fs : FS) :
    resolveNotes a fs = claimNotesResolutionAmended a fs := by
  unfold resolveNotes resolveNotesPath claimNotesResolutionAmended
  by_cases h1 : pyStrip a.notesFile ≠ []
  · rw [if_pos h1, if_pos h1]
    exact load_notes_some fs a.notesFile
  · rw [if_neg h1, if_neg h1]
    by_cases h2 : (fs.files (convNotesPathOf a)).isSome = true
    · rw [if_pos h2, if_pos h2]
      exact load_notes_some fs (convNotesPathOf a)
    · rw [if_neg h2, if_neg h2]
      rfl

theorem mainRun_fs_or (a : Args) (env : Env) (fs : FS) (now : List Char) :
    (mainRun a env fs now).fsOf = ensure_base_appcast fs (appcastPathOf a) a.downloadBase
    ∨ (mainRun a env fs now).isFatal = false := by
  simp only [mainRun]
  split
  next code msg heq => left; rfl
  next fileSize heq =>
    split
    next heq2 => left; rfl
    next heq2 => left; rfl
    next e heq2 =>
      split
      next heq3 => left; rfl
      next u heq3 => right; rfl

theorem mainRun_fatal_fs (a : Args) (env : Env) (fs : FS) (now : List Char)
    (hfat : (mainRun a env fs now).isFatal = true) :
    (mainRun a env fs now).fsOf = ensure_base_appcast fs (appcastPathOf a) a.downloadBase := by
  rcases mainRun_fs_or a env fs now with h | h
  · exact h
  · rw [hfat] at h
    cases h

/-- Claim C3 counterexample: with no pre-existing document and a missing
artifact, the run terminates fatally yet has persisted the bootstrap skeleton
at the target path, which did not exist before the run. -/
theorem c3_counterexample_bootstrap_persists :
    (mainRun cexArgs cexEnv fsEmpty (strL "PD")).isFatal = true
    ∧ fsEmpty.files (appcastPathOf cexArgs) = none
    ∧ ((mainRun cexArgs cexEnv fsEmpty (strL "PD")).fsOf.files (appcastPathOf cexArgs)).isSome
        = true := by
  refine ⟨by decide, rfl, by decide⟩

/-- Claim C3 amended: on every run that terminates with a fatal error, the
document at the target path is exactly what ensure_base_appcast left there; in
particular when the document already existed before the run it is untouched
byte-for-byte (the amendment concedes only the bootstrap write of a skeleton
when no document existed). -/
theorem c3_failed_run_preserves_existing_doc (a : Args) (env : Env) (fs : FS)
    (now : List Char)
    (hpre : (fs.files (appcastPathOf a)).isSome = true)
    (hfat : (mainRun a env fs now).isFatal = true) :
    (mainRun a env fs now).fsOf.files (appcastPathOf a) = fs.files (appcastPathOf a) := by
  rw [mainRun_fatal_fs a env fs now hfat, ensure_of_isSome hpre]

theorem c3_failed_run_preserves_existing_doc_witness :
    (mainRun cexArgs cexEnv fsC5 (strL "PD")).fsOf.files (appcastPathOf cexArgs)
      = fsC5.files (appcastPathOf cexArgs) :=
  c3_failed_run_preserves_existing_doc cexArgs cexEnv fsC5 (strL "PD") (by decide) (by decide)

def c1cexDoc : List Char :=
  strL "<rss>\n  <channel>\n<item>\n<title>App Detective 2</title>\n<sparkle:version>2</sparkle:version>\n</item>\n<item>\n<title>App Detective 1</title>\n<sparkle:version>1</sparkle:version>\n</item>\n</channel>\n</rss>\n"

def c1cexNew : List Char :=
  build_item (strL "1") (strL "1") (strL "u") (pyStrNat 9) defaultNotes (strL "13.0")
    none none (strL "PD")

/-- Claim C1 counterexample: a document whose entry for version 2 precedes the
entry for version 1.  Updating version 1 (remove_existing_item then
append_item with the freshly composed fragment) erases the version 2 entry as
well: its version tag occurs in the input but not in the output, because the
leftmost match of the removal pattern starts at the version 2 entry and spans
up to the version 1 entry. -/
theorem c1_update_frame_counterexample :
    occursB (verLit (strL "2")) c1cexDoc = true
    ∧ (append_item (remove_existing_item c1cexDoc (strL "1")) c1cexNew).isSome = true
    ∧ occursB (verLit (strL "2"))
        ((append_item (remove_existing_item c1cexDoc (strL "1")) c1cexNew).getD []) = false := by
  exact ⟨by decide, by decide, by decide⟩

/-- Claim C1 amended: when the entry removed for version v1 is the leftmost
region X the pattern matches (so in particular the v1 entry precedes the other
entry i2), no match can start in the prefix H or restart in the remainder, and
the single closing channel marker sits after i2, then the update rewrites the
document to exactly H ++ M ++ i2 ++ N1 ++ newItem ++ "\n  " ++ marker ++ N2:
the i2 fragment and all content outside the removed region and the insertion
point are preserved byte-for-byte. -/
theorem c1_update_frame_amended (v1 H X M i2 N1 N2 newItem : List Char)
    (hH : noStartB v1 H (X ++ (M ++ (i2 ++ (N1 ++ (markerL ++ N2))))) = true)
    (hX : matchAt v1 (X ++ (M ++ (i2 ++ (N1 ++ (markerL ++ N2)))))
        = some (M ++ (i2 ++ (N1 ++ (markerL ++ N2)))))
    (hR : cleanB v1 (M ++ (i2 ++ (N1 ++ (markerL ++ N2)))) = true)
    (hnh : noHitB markerL (H ++ (M ++ (i2 ++ N1))) (markerL ++ N2) = true)
    (hN2 : occursB markerL N2 = false) :
    append_item
        (remove_existing_item (H ++ (X ++ (M ++ (i2 ++ (N1 ++ (markerL ++ N2)))))) v1) newItem
      = some ((H ++ (M ++ (i2 ++ N1))) ++ ((newItem ++ strL "\n  " ++ markerL) ++ N2)) := by
  have hrm : remove_existing_item (H ++ (X ++ (M ++ (i2 ++ (N1 ++ (markerL ++ N2)))))) v1
      = (H ++ (M ++ (i2 ++ N1))) ++ (markerL ++ N2) := by
    unfold remove_existing_item
    rw [removeAll_append_of_noStart _ hH, removeAll_of_matchAt hX, removeAll_of_clean hR]
    simp only [List.append_assoc]
  rw [hrm]
  unfold append_item
  rw [if_pos (occursB_append_mid markerL (H ++ (M ++ (i2 ++ N1))) N2)]
  rw [replaceMarker_skip (markerL ++ N2) hnh, replaceMarker_marker,
      replaceMarker_of_not_occurs hN2]

def c1H : List Char := strL "<rss>\n  <channel>"
def c1X : List Char :=
  strL "\n<item>\n<title>App Detective 1</title>\n<sparkle:version>1</sparkle:version>\n</item>"
def c1M : List Char := strL "\n"
def c1I2 : List Char :=
  strL "<item>\n<title>App Detective 2</title>\n<sparkle:version>2</sparkle:version>\n</item>"
def c1N1 : List Char := strL "\n  "
def c1N2 : List Char := strL "\n</rss>\n"

theorem c1_update_frame_amended_witness :
    append_item
        (remove_existing_item (c1H ++ (c1X ++ (c1M ++ (c1I2 ++ (c1N1 ++ (markerL ++ c1N2))))))
          (strL "1")) (strL "NEW")
      = some ((c1H ++ (c1M ++ (c1I2 ++ c1N1))) ++ ((strL "NEW" ++ strL "\n  " ++ markerL) ++ c1N2)) :=
  c1_update_frame_amended (strL "1") c1H c1X c1M c1I2 c1N1 c1N2 (strL "NEW")
    (by decide) (by decide) (by decide) (by decide) (by decide)

def c2cexDoc : List Char :=
  strL "<rss>\n  <channel>\n<item>\n<title>Other App 0.9</title>\n<sparkle:version>7</sparkle:version>\n</item>\n</channel>\n</rss>\n"

def c2cexNew : List Char :=
  build_item (strL "7") (strL "7") (strL "u") (pyStrNat 9) defaultNotes (strL "13.0")
    none none (strL "PD")

/-- Claim C2 counterexample: a document with an entry whose sparkle:version
field equals 7 exactly, but whose title does not begin with the fixed prefix
the removal pattern demands.  Rerunning the update for 7 removes nothing and
appends a new fragment, leaving two entries for version 7, not exactly one. -/
theorem c2_single_entry_counterexample :
    occursB (verLit (strL "7")) c2cexDoc = true
    ∧ countOcc (verLit (strL "7"))
        ((append_item (remove_existing_item c2cexDoc (strL "7")) c2cexNew).getD []) = 2 := by
  exact ⟨by decide, by decide⟩

/-- Claim C2 amended: when the stale entry for v is the region X the removal
pattern matches (entries recognized through their App Detective title prefix),
no match can start before X or after it, the closing marker is unique and
follows the removal region, the surrounding text carries no version tag for v,
and the freshly composed fragment carries exactly one, then the update yields
the document with the new fragment spliced before the marker and exactly one
entry (version tag occurrence) for v, the new one. -/
theorem c2_single_entry_amended (v H X N1 N2 sv url fsz notes minSys pd : List Char)
    (se se31 : Option (List Char))
    (hH : noStartB v H (X ++ (N1 ++ (markerL ++ N2))) = true)
    (hX : matchAt v (X ++ (N1 ++ (markerL ++ N2))) = some (N1 ++ (markerL ++ N2)))
    (hR : cleanB v (N1 ++ (markerL ++ N2)) = true)
    (hnh : noHitB markerL (H ++ N1) (markerL ++ N2) = true)
    (hN2 : occursB markerL N2 = false)
    (h1 : occursB (verLit v) (H ++ N1) = false)
    (h2 : occursB (verLit v) N2 = false)
    (hs1 : noStraddleB (verLit v) (H ++ N1)
        ((build_item v sv url fsz notes minSys se se31 pd ++ strL "\n  " ++ markerL) ++ N2) = true)
    (hs2 : noStraddleB (verLit v)
        (build_item v sv url fsz notes minSys se se31 pd ++ strL "\n  " ++ markerL) N2 = true)
    (hone : countOcc (verLit v)
        (build_item v sv url fsz notes minSys se se31 pd ++ strL "\n  " ++ markerL) = 1) :
    append_item (remove_existing_item (H ++ (X ++ (N1 ++ (markerL ++ N2)))) v)
        (build_item v sv url fsz notes minSys se se31 pd)
      = some ((H ++ N1)
          ++ ((build_item v sv url fsz notes minSys se se31 pd ++ strL "\n  " ++ markerL) ++ N2))
    ∧ countOcc (verLit v)
        ((H ++ N1)
          ++ ((build_item v sv url fsz notes minSys se se31 pd ++ strL "\n  " ++ markerL) ++ N2))
        = 1 := by
  have hvne : verLit v ≠ [] := by
    intro h
    have h2l := congrArg List.length h
    have h17 : verOpenL.length = 17 := rfl
    simp only [verLit, List.length_append, List.length_nil] at h2l
    omega
  constructor
  · have hrm : remove_existing_item (H ++ (X ++ (N1 ++ (markerL ++ N2)))) v
        = (H ++ N1) ++ (markerL ++ N2) := by
      unfold remove_existing_item
      rw [removeAll_append_of_noStart _ hH, removeAll_of_matchAt hX, removeAll_of_clean hR]
      simp only [List.append_assoc]
    rw [hrm]
    unfold append_item
    rw [if_pos (occursB_append_mid markerL (H ++ N1) N2)]
    rw [replaceMarker_skip (markerL ++ N2) hnh, replaceMarker_marker,
        replaceMarker_of_not_occurs hN2]
  · rw [countOcc_append_of_noStraddle hvne _ hs1,
        countOcc_append_of_noStraddle hvne _ hs2,
        countOcc_eq_zero_of_not_occurs h1, countOcc_eq_zero_of_not_occurs h2, hone]

def c2H : List Char := strL "<rss>\n  <channel>"
def c2X : List Char :=
  strL "\n<item>\n<title>App Detective 0.9</title>\n<sparkle:version>7</sparkle:version>\n</item>"
def c2N1 : List Char := strL "\n  "
def c2N2 : List Char := strL "\n</rss>\n"

theorem c2_single_entry_amended_witness :
    append_item (remove_existing_item (c2H ++ (c2X ++ (c2N1 ++ (markerL ++ c2N2)))) (strL "7"))
        (build_item (strL "7") (strL "7") (strL "u") (pyStrNat 9) defaultNotes (strL "13.0")
          none none (strL "PD"))
      = some ((c2H ++ c2N1)
          ++ ((build_item (strL "7") (strL "7") (strL "u") (pyStrNat 9) defaultNotes (strL "13.0")
                none none (strL "PD") ++ strL "\n  " ++ markerL) ++ c2N2))
    ∧ countOcc (verLit (strL "7"))
        ((c2H ++ c2N1)
          ++ ((build_item (strL "7") (strL "7") (strL "u") (pyStrNat 9) defaultNotes (strL "13.0")
                none none (strL "PD") ++ strL "\n  " ++ markerL) ++ c2N2)) = 1 :=
  c2_single_entry_amended (strL "7") c2H c2X c2N1 c2N2 (strL "7") (strL "u") (pyStrNat 9)
    defaultNotes (strL "13.0") (strL "PD") none none
    (by decide) (by decide) (by decide) (by decide) (by decide) (by decide) (by decide)
    (by decide) (by decide) (by decide)
